import Mathlib

/-!
# Verification of the speech playback controller (`src/prototype/text_speaker_v2.py`)

A shallow embedding of the playback controller of the `tts_read` repository:
the `NBSapiSpeaker` / `Pyttsx3Speaker` classes, their `speak` / `pause` /
`resume` / `stop` operations, the fallback word-highlighting scheduler
(tokenization, timing projection, pause shifting, drift correction) and the
worker-thread status-polling loop.

Python floats are embedded as rationals (`ℚ`): every arithmetic operation the
embedded code performs (addition, multiplication, division, comparison) is
modelled exactly; float rounding error is out of scope.  Python lists are
`List`, the shared boolean flags are record fields, and concurrency is
modelled as an explicit interleaving of atomic steps chosen by a scheduler
(the list of `SysAction`s).
-/

namespace TtsRead

/-! ## Engine adapter calls

Every call the controller issues into the underlying engine adapter
(`self.tts.…` in `NBSapiSpeaker`) is recorded as an `EngineCall`. -/

inductive EngineCall where
  | eSpeak (text : String)
  | eStop
  | ePause
  | eResume
  | eGetStatus
  | eSetRate (r : ℤ)
  deriving DecidableEq, Repr

/-! ## Rate mapping (`NBSapiSpeaker.speak`, lines 227–229)

`sapi_rate = round((speed - 1.0) * 10); sapi_rate = max(-10, min(10, sapi_rate))`.
Python's `round` rounds halves to even (banker's rounding). -/

/-- Python `int(q)`: truncation toward zero. -/
def pythonInt (q : ℚ) : ℤ :=
  if 0 ≤ q then ⌊q⌋ else ⌈q⌉

/-- Python `round(q)` on an exact value: nearest integer, halves to even. -/
def pythonRound (q : ℚ) : ℤ :=
  let f : ℤ := ⌊q⌋
  let r : ℚ := q - (f : ℚ)
  if r < 1/2 then f
  else if 1/2 < r then f + 1
  else if f % 2 = 0 then f else f + 1

/-- `NBSapiSpeaker.speak`: semantic speed → native SAPI rate. -/
def sapiRate (speed : ℚ) : ℤ :=
  max (-10) (min 10 (pythonRound ((speed - 1) * 10)))

/-! ## Speaker state

The shared attributes of `TextSpeakerBase` / `NBSapiSpeaker` that the claims
are about: `_is_speaking`, `_is_paused`, `_current_text`, `_word_callback`
(modelled as a `Bool`: whether a callback is stored), plus the word-tracking
fields `_current_words`, `_current_word_index`, `_paused_word_index`. -/

/-- One entry of `self._current_words`: `(start, length)` of a word in the
original text (the `'text'` field is recoverable from the text itself). -/
abbrev WordTok := Nat × Nat

structure SpeakerState where
  isSpeakingFlag : Bool
  isPausedFlag : Bool
  currentText : String
  hasWordCallback : Bool
  currentWords : List WordTok
  currentWordIndex : Nat
  pausedWordIndex : Nat
  deriving DecidableEq, Repr

/-- A freshly constructed speaker (`TextSpeakerBase.__init__` +
`NBSapiSpeaker.__init__`). -/
def initialSpeaker : SpeakerState :=
  { isSpeakingFlag := false
    isPausedFlag := false
    currentText := ""
    hasWordCallback := false
    currentWords := []
    currentWordIndex := 0
    pausedWordIndex := 0 }

/-- `TextSpeakerBase.is_speaking`. -/
def is_speaking (s : SpeakerState) : Bool :=
  s.isSpeakingFlag && !s.isPausedFlag

/-- `TextSpeakerBase.is_active`. -/
def is_active (s : SpeakerState) : Bool :=
  s.isSpeakingFlag

/-- `TextSpeakerBase.is_paused`. -/
def is_paused (s : SpeakerState) : Bool :=
  s.isPausedFlag

/-! ## `NBSapiSpeaker.stop` (lines 633–662)

The body is a `try`: read the flags; if not speaking, return (no engine
call); otherwise `self.tts.Stop()` — which may throw (`engineStopFails`) —
then clear the engine-side word callback and clear both flags.  The
`except` handler clears both flags as well ("Ensure state is cleared even
on error").  Nothing is ever re-raised. -/

/-- The `try`-block of `NBSapiSpeaker.stop`; `.error` marks an escaping
engine exception (before the flag-clearing lines were reached). -/
def stopBody (engineStopFails : Bool) (s : SpeakerState) :
    Except String (SpeakerState × List EngineCall) :=
  if !s.isSpeakingFlag then
    .ok (s, [])
  else if engineStopFails then
    .error "NBSapi stop error"
  else
    .ok ({ s with isSpeakingFlag := false, isPausedFlag := false },
         [EngineCall.eStop])

/-- `NBSapiSpeaker.stop`: the `try` body wrapped in the `except` handler
that forces both flags to `False`.  Total: no exception escapes. -/
def stop (engineStopFails : Bool) (s : SpeakerState) :
    SpeakerState × List EngineCall :=
  match stopBody engineStopFails s with
  | .ok r => r
  | .error _ =>
      ({ s with isSpeakingFlag := false, isPausedFlag := false },
       [EngineCall.eStop])

/-! ## `NBSapiSpeaker.speak` (lines 205–238)

Reads the flags, calls `self.stop()`, sets
`_current_text / _is_speaking / _is_paused / _word_callback`, sets the
engine rate, and spawns the worker thread.  There is no check of any kind
on `text`: an empty or whitespace-only string flows through unchanged. -/

structure SpeakResult where
  state : SpeakerState
  engineCalls : List EngineCall
  workerSpawned : Bool
  deriving DecidableEq, Repr

def speak (text : String) (speed : ℚ) (wordCallback : Bool)
    (s : SpeakerState) : SpeakResult :=
  let (s1, stopCalls) := stop false s
  let s2 := { s1 with
              currentText := text
              isSpeakingFlag := true
              isPausedFlag := false
              hasWordCallback := wordCallback }
  { state := s2
    engineCalls := stopCalls ++ [EngineCall.eSetRate (sapiRate speed)]
    workerSpawned := true }

/-- `Pyttsx3Speaker.speak` (lines 702–734): same shape — `self.stop()`,
set the flags, set the rate (`int(200 * speed)`), spawn the worker.
Again no emptiness check on `text`. -/
def pyttsx3Speak (text : String) (speed : ℚ) (wordCallback : Bool)
    (s : SpeakerState) : SpeakResult :=
  let s1 := { s with isSpeakingFlag := false, isPausedFlag := false }
  let s2 := { s1 with
              currentText := text
              isSpeakingFlag := true
              isPausedFlag := false
              hasWordCallback := wordCallback }
  { state := s2
    engineCalls := [EngineCall.eSetRate (pythonInt (200 * speed))]
    workerSpawned := true }

/-! ## `NBSapiSpeaker.pause` (lines 550–578) and `NBSapiSpeaker.resume`
(lines 580–631)

`pause` is a no-op unless speaking and not paused; it saves
`_paused_word_index = _current_word_index`, calls `self.tts.Pause()` and
sets `_is_paused = True`.

`resume` is a no-op unless speaking and paused.  When
`self._current_words` is non-empty and `self._paused_word_index > 0` it
enters the "intelligent resume" branch inside `with self._lock:`
(line 593): it calls `self.tts.Stop()` (line 608), sets
`self._current_word_index = resume_word_index` (line 611), calls
`self.tts.Speak(text_from_resume, 1)` (line 615) — and then reaches
`with self._lock:` at line 617 while the lock opened at line 593 is
still held.  `self._lock` is a non-reentrant `threading.Lock`, so the
thread deadlocks there, before `self._is_paused = False` is ever
executed.  Only the other branch — engine `Resume` (line 626), then the
flag clear at lines 627–628 *outside* the held lock — completes.

(The rewind branch is additionally dead code: `_current_word_index` is
only ever written 0 on any path that returns — lines 200 and 377; the
fallback loop advances a local variable — so `_paused_word_index`,
a copy of it made by `pause` at line 564, is always 0.  The reachability
development below proves this.) -/

def pause (s : SpeakerState) : SpeakerState × List EngineCall :=
  if !s.isSpeakingFlag then (s, [])
  else if s.isPausedFlag then (s, [])
  else
    ({ s with pausedWordIndex := s.currentWordIndex, isPausedFlag := true },
     [EngineCall.ePause])

/-- How a `resume()` call ends. -/
inductive ResumeOutcome where
  | noop
  | resumed
  /-- The rewind branch: the thread hangs at line 617 re-acquiring the
  non-reentrant lock it has held since line 593; `_is_paused = False` is
  never reached. -/
  | deadlockedInRewind
  deriving DecidableEq, Repr

structure ResumeResult where
  outcome : ResumeOutcome
  /-- The shared state as left behind: in the `deadlockedInRewind` case
  this is the state at the moment the thread hangs (paused flag still
  set). -/
  state : SpeakerState
  engineCalls : List EngineCall
  deriving DecidableEq, Repr

def resume (s : SpeakerState) : ResumeResult :=
  if !s.isSpeakingFlag then ⟨.noop, s, []⟩
  else if !s.isPausedFlag then ⟨.noop, s, []⟩
  else if s.currentWords ≠ [] ∧ 0 < s.pausedWordIndex then
    let resumeWordIndex : Nat := s.pausedWordIndex - 1
    let resumeWord : WordTok := s.currentWords.getD resumeWordIndex (0, 0)
    let textFromResume : String := s.currentText.drop resumeWord.1
    ⟨.deadlockedInRewind,
     { s with currentWordIndex := resumeWordIndex },
     [EngineCall.eStop, EngineCall.eSpeak textFromResume]⟩
  else
    ⟨.resumed, { s with isPausedFlag := false }, [EngineCall.eResume]⟩

/-! ## Tokenization (`_speak_with_word_highlighting_fallback`, lines 355–371)

`re.finditer(r'\S+', text)`: maximal runs of non-whitespace characters,
each recorded as `(match.start(), len(word))` against the original text.
Embedded as a single left-to-right scan over the character list. -/

structure TokState where
  pos : Nat
  cur : Option Nat
  toks : List WordTok
  deriving Repr

/-- One character of the `\S+` scan: whitespace closes the current word
(if any), non-whitespace opens or extends one. -/
def tokStep (st : TokState) (c : Char) : TokState :=
  if c.isWhitespace then
    match st.cur with
    | none => { st with pos := st.pos + 1 }
    | some s0 =>
        { pos := st.pos + 1, cur := none, toks := (s0, st.pos - s0) :: st.toks }
  else
    match st.cur with
    | none => { st with pos := st.pos + 1, cur := some st.pos }
    | some s0 => { st with pos := st.pos + 1, cur := some s0 }

/-- Close a still-open word at end of text. -/
def tokFinish (st : TokState) : List WordTok :=
  match st.cur with
  | none => st.toks
  | some s0 => (s0, st.pos - s0) :: st.toks

/-- All `\S+` matches of `cs` as `(start, length)`, in text order. -/
def tokenize (cs : List Char) : List WordTok :=
  (tokFinish (cs.foldl tokStep ⟨0, none, []⟩)).reverse

/-! ## Native word-boundary callback (`_speak_worker.on_word_boundary`,
lines 250–265)

The handler forwards an engine event `(location, length)` to the stored
word callback only when `location >= 0 and length > 0` and
`location + length <= len(self._current_text)`; everything else is
dropped.  It neither reorders events nor remembers previous offsets. -/

/-- The bounds filter of `on_word_boundary`, applied to the sequence of
events the engine delivers (offsets as supplied by the engine, possibly
negative). -/
def nativeDelivered (textLen : Nat) (events : List (ℤ × ℤ)) : List (ℤ × ℤ) :=
  events.filter fun e =>
    decide (0 ≤ e.1) && decide (0 < e.2) && decide (e.1 + e.2 ≤ (textLen : ℤ))

/-! ## Timing model of the fallback scheduler
(`_sapi_status_word_highlighting`, lines 387–529)

`words[j]['expected_time']` is a rational timestamp.  Two in-place updates
touch a suffix of the expected-time list:

* pause shifting (lines 450–453): `words[j] += pause_duration` for
  `j in range(current_word_index, len(words))`;
* drift correction (lines 506–513): `words[j] += (words[j] - start) * cf`
  for `j in range(current_word_index + 1, len(words))`, where
  `cf = (mean(last 3 timing ratios) - 1.0) * 0.3`.

Both are instances of mapping a function over all indices `≥ n`. -/

/-- Apply `f` to every element at index `≥ n` (the Python
`for j in range(n, len(l)): l[j] = f(l[j])`). -/
def mapFrom (f : ℚ → ℚ) : Nat → List ℚ → List ℚ
  | _, [] => []
  | 0, t :: ts => f t :: mapFrom f 0 ts
  | n + 1, t :: ts => t :: mapFrom f n ts

/-- Pause shifting: the statement at lines 450–453 — add the measured
pause duration to the expected time of every word at index `≥ fromIdx`
(`fromIdx` is `current_word_index`).  These lines are unreachable in the
program: they follow the pause busy-wait of lines 443–444, which spins
forever holding the non-reentrant lock (see `fallbackIteration`). -/
def shiftForPause (d : ℚ) (fromIdx : Nat) (times : List ℚ) : List ℚ :=
  mapFrom (fun t => t + d) fromIdx times

/-- The timing ratio recorded after highlighting a word (lines 499–503):
`actual_elapsed / expected_elapsed` relative to `speech_start_time`. -/
def timingRatio (startTime expectedTime currentTime : ℚ) : ℚ :=
  (currentTime - startTime) / (expectedTime - startTime)

/-- Python `timing_corrections[-3:]`. -/
def lastThree (l : List ℚ) : List ℚ :=
  l.drop (l.length - 3)

/-- The damped correction factor (lines 507–508): 30 % of the deviation of
the mean of the last three timing ratios from 1
(`(sum(timing_corrections[-3:]) / 3 - 1.0) * 0.3`). -/
def correctionFactor (last3 : List ℚ) : ℚ :=
  (last3.sum / 3 - 1) * (3 / 10)

/-- One word's drift adjustment (lines 512–513):
`expected_time += (expected_time - speech_start_time) * cf`. -/
def driftAdjust (startTime cf : ℚ) (t : ℚ) : ℚ :=
  t + (t - startTime) * cf

/-- Drift correction step: adjust every not-yet-highlighted word, i.e.
indices `≥ curIdx + 1` (lines 511–513). -/
def driftCorrect (startTime cf : ℚ) (curIdx : Nat) (times : List ℚ) :
    List ℚ :=
  mapFrom (driftAdjust startTime cf) (curIdx + 1) times

/-! ## The worker status-polling loop (`_speak_worker`, lines 301–334)

One iteration of `while True`: under the lock, exit if `_is_speaking` is
false; if `_is_paused`, sleep and continue **without** calling
`GetStatus`.  Otherwise poll `GetStatus("RunningState")` (which may
raise — caught, loop continues), and on status `1` re-check `_is_paused`
under the lock: completion is honoured only when not paused.  The pause
flag can change between the unlocked poll and the re-check, hence the two
separate paused parameters. -/

inductive IterExit where
  | continueLoop
  | exitStopped
  | exitCompleted
  /-- Only in the fallback loop: the pause busy-wait spins forever while
  holding the non-reentrant lock. -/
  | deadlocked
  deriving DecidableEq, Repr

structure FallbackState where
  curIdx : Nat
  times : List ℚ
  ratios : List ℚ
  deriving DecidableEq, Repr

/-- The timed-highlighting tail of an iteration (lines 482–519): if real
time has reached the current word's expected time, highlight it, record
the timing ratio (only when `expected_elapsed > 0`), apply drift
correction to the later words once three ratios exist, and advance. -/
def timedHighlightStep (startTime currentTime : ℚ) (words : List WordTok)
    (st : FallbackState) : FallbackState × Option WordTok :=
  match st.times.get? st.curIdx with
  | none => (st, none)
  | some expT =>
      if expT ≤ currentTime then
        let w := words.getD st.curIdx (0, 0)
        let expectedElapsed := expT - startTime
        if 0 < expectedElapsed then
          let ratios' := st.ratios ++ [timingRatio startTime expT currentTime]
          let times' :=
            if 3 ≤ ratios'.length then
              driftCorrect startTime (correctionFactor (lastThree ratios'))
                st.curIdx st.times
            else st.times
          (⟨st.curIdx + 1, times', ratios'⟩, some w)
        else
          (⟨st.curIdx + 1, st.times, st.ratios⟩, some w)
      else (st, none)

structure FallbackEnv where
  /-- `_is_speaking` read under the lock at the top of the iteration. -/
  speakingAtTop : Bool
  /-- `_is_paused` read under the lock at the top of the iteration. -/
  pausedAtTop : Bool
  /-- `current_time - last_check_time >= 0.2`. -/
  checkDue : Bool
  /-- `GetStatus` result, `none` if the call raised. -/
  pollResult : Option Nat
  /-- `time.time()` at this iteration. -/
  currentTime : ℚ

structure FallbackIterResult where
  exit : IterExit
  statusPolled : Bool
  /-- Words quick-highlighted by the completion branch (lines 466–477). -/
  flushed : List WordTok
  /-- The word highlighted by the timed branch, if it fired. -/
  highlighted : Option WordTok
  state : FallbackState
  deriving Repr

/-- One iteration of the fallback monitoring loop.  An iteration that
observes `_is_paused` under the lock enters the busy-wait of
lines 443–444 still holding the lock and never leaves it: no status
poll, no flush, no highlight, no change to the loop state — the worker
is deadlocked from that point on. -/
def fallbackIteration (env : FallbackEnv) (startTime : ℚ)
    (words : List WordTok) (st : FallbackState) : FallbackIterResult :=
  if !env.speakingAtTop then
    ⟨.exitStopped, false, [], none, st⟩
  else if env.pausedAtTop then
    ⟨.deadlocked, false, [], none, st⟩
  else if env.checkDue && env.pollResult = some 1 then
    ⟨.exitCompleted, true, words.drop st.curIdx, none, st⟩
  else
    let (st', hl) := timedHighlightStep startTime env.currentTime words st
    ⟨.continueLoop, env.checkDue, [], hl, st'⟩

/-! ## Worker-thread exit (`_speak_worker`, lines 340–347)

The `finally` block runs on every exit of the worker — normal completion,
a stop observed in the loop, or an exception escaping the speak logic:
it clears `_is_speaking`, `_is_paused` and `_word_callback` under the
lock and unregisters the thread from the global registry. -/

structure ProcessState where
  speaker : SpeakerState
  /-- `_GLOBAL_THREAD_REGISTRY`, as the list of registered thread ids. -/
  registry : List Nat
  deriving DecidableEq, Repr

/-- How the worker body ended (the `try` part of `_speak_worker`). -/
inductive WorkerOutcome where
  | completedNormally
  | sawStop
  | raisedException
  deriving DecidableEq, Repr

/-- `unregister_speech_thread`: `set.discard` on the registry. -/
def unregisterSpeechThread (tid : Nat) (reg : List Nat) : List Nat :=
  reg.filter fun t => t ≠ tid

/-- The `finally` block of `_speak_worker`. -/
def workerFinallyCleanup (tid : Nat) (p : ProcessState) : ProcessState :=
  { speaker := { p.speaker with
                 isSpeakingFlag := false
                 isPausedFlag := false
                 hasWordCallback := false }
    registry := unregisterSpeechThread tid p.registry }

/-- Worker exit: whatever state the body left (`p`) and however it ended
(`outcome`), the `finally` block runs. -/
def workerExit (_outcome : WorkerOutcome) (tid : Nat) (p : ProcessState) :
    ProcessState :=
  workerFinallyCleanup tid p

/-- Delivery guard of the word callback (`if self._word_callback:` in
`on_word_boundary` and in the fallback loop): events are forwarded only
while a callback is stored. -/
def deliverWordCallback (s : SpeakerState) (ev : Nat × Nat) :
    List (Nat × Nat) :=
  if s.hasWordCallback then [ev] else []

/-! ## Interleaving model of `speak()` and the worker threads

`speak()` runs on the caller's thread; each call spawns one worker thread
(`_speak_worker`).  The shared flags `_is_speaking` / `_is_paused` are the
only communication between them: `stop()` does not join the worker, and
`speak()` sets `_is_speaking = True` again right after `stop()` returns.
Each `SysAction` is one atomic step of one thread — a whole `speak()`
call on the caller's thread (its lock-protected pieces run without any
worker step in between, the strongest reading of the claim), or one
iteration of one worker thread.  The scheduler is the action list.

Engine calls are logged as `(thread id, call)`; thread id `0` is the
caller's thread. -/

inductive WorkerPC where
  | launching
  | polling
  | finished
  deriving DecidableEq, Repr

structure WorkerEntry where
  tid : Nat
  pc : WorkerPC
  text : String
  deriving DecidableEq, Repr

structure SysState where
  speaking : Bool
  paused : Bool
  workers : List WorkerEntry
  nextTid : Nat
  log : List (Nat × EngineCall)
  deriving DecidableEq, Repr

def initSys : SysState :=
  { speaking := false, paused := false, workers := [], nextTid := 1, log := [] }

inductive SysAction where
  /-- A full `speak(text)` call on the caller's thread. -/
  | speakCall (text : String)
  /-- One step of worker `tid`; `status` is what `GetStatus` would
  return during this step. -/
  | workerStep (tid : Nat) (status : Nat)
  deriving DecidableEq, Repr

def setPC (tid : Nat) (pc : WorkerPC) (ws : List WorkerEntry) :
    List WorkerEntry :=
  ws.map fun w => if w.tid = tid then { w with pc := pc } else w

def lookupPC (tid : Nat) (ws : List WorkerEntry) : Option WorkerPC :=
  (ws.find? fun w => w.tid = tid).map WorkerEntry.pc

/-- One step of `_speak_worker` `tid` (word-callback-free native path):
`launching` issues `self.tts.Speak(text, 1)`; `polling` runs one
iteration of the status loop (lines 301–334); on exit the `finally`
block clears the shared flags. -/
def workerSysStep (tid : Nat) (status : Nat) (s : SysState) : SysState :=
  match lookupPC tid s.workers with
  | some .launching =>
      let text := ((s.workers.find? fun w => w.tid = tid).map
                     WorkerEntry.text).getD ""
      { s with
        log := s.log ++ [(tid, EngineCall.eSpeak text)]
        workers := setPC tid .polling s.workers }
  | some .polling =>
      if !s.speaking then
        { s with
          speaking := false, paused := false
          workers := setPC tid .finished s.workers }
      else if s.paused then s
      else
        let s1 := { s with log := s.log ++ [(tid, EngineCall.eGetStatus)] }
        if status = 1 then
          { s1 with
            speaking := false, paused := false
            workers := setPC tid .finished s1.workers }
        else s1
  | _ => s

/-- One atomic system step. A `speakCall` is `NBSapiSpeaker.speak`:
`self.stop()` (engine `Stop` only if currently speaking — and no join of
any worker), set `_is_speaking = True`, `SetRate`, spawn a new worker. -/
def sysStep (s : SysState) (a : SysAction) : SysState :=
  match a with
  | .speakCall text =>
      let logAfterStop :=
        if s.speaking then s.log ++ [(0, EngineCall.eStop)] else s.log
      { speaking := true
        paused := false
        workers := s.workers ++ [⟨s.nextTid, .launching, text⟩]
        nextTid := s.nextTid + 1
        log := logAfterStop ++ [(0, EngineCall.eSetRate 0)] }
  | .workerStep tid status => workerSysStep tid status s

def runSys (s : SysState) (trace : List SysAction) : SysState :=
  trace.foldl sysStep s

/-- Collapse consecutive repeats: `[1,1,2,1] ↦ [1,2,1]`. -/
def collapseRuns : List Nat → List Nat
  | [] => []
  | [a] => [a]
  | a :: b :: rest =>
      if a = b then collapseRuns (b :: rest) else a :: collapseRuns (b :: rest)

/-- Thread ids of the engine calls made by worker threads, in log order. -/
def workerCallTids (log : List (Nat × EngineCall)) : List Nat :=
  (log.map Prod.fst).filter fun t => t ≠ 0

/-- The engine calls of distinct workers never interleave: each worker's
calls form one contiguous block of the log.  This is what "a new `speak()`
fully stops the previous worker before the new worker issues any engine
call" guarantees about observable engine traffic. -/
def workersSerialized (log : List (Nat × EngineCall)) : Prop :=
  (collapseRuns (workerCallTids log)).Nodup

instance (log : List (Nat × EngineCall)) : Decidable (workersSerialized log) :=
  inferInstanceAs (Decidable (collapseRuns (workerCallTids log)).Nodup)

/-- The scheduler choices exhibiting the race: worker 1 is mid-poll when
`speak` is called again; worker 2 speaks; worker 1 wakes, sees
`_is_speaking = True` (set by the new request), and polls the engine. -/
def raceTrace : List SysAction :=
  [ .speakCall "one"
  , .workerStep 1 0
  , .speakCall "two"
  , .workerStep 2 0
  , .workerStep 1 0 ]

/-! ## Auxiliary predicates for the tokenizer proof -/

/-- The reversed token list `toks` is well-formed below `bound`: each
entry `(s, l)` is a non-empty word ending at or before the start of the
word recorded after it (`bound` for the head). -/
def sepSorted : List WordTok → Nat → Prop
  | [], _ => True
  | (s0, l0) :: rest, bound => s0 + l0 ≤ bound ∧ 0 < l0 ∧ sepSorted rest s0

/-- Scan invariant of `tokStep`. -/
def TokInv (st : TokState) : Prop :=
  match st.cur with
  | none => sepSorted st.toks st.pos
  | some s0 => s0 < st.pos ∧ sepSorted st.toks s0

/-- Offsets of a delivered highlight sequence are non-decreasing. -/
def offsetsMono (l : List (ℤ × ℤ)) : Prop :=
  l.Chain' fun a b => a.1 ≤ b.1

/-! ## Reachable speaker states

The shared fields of the speaker are mutated only by these operations:
`speak` (lines 205–238), the fallback initialisation
(`with self._lock:` at lines 375–377, setting `_current_words` and
`_current_word_index = 0`), `pause`, `resume`, `stop`, and the worker's
`finally` block.  The fallback loop itself advances only a *local*
`current_word_index` (lines 422 and 515) and never writes
`self._current_word_index`; the only other write to it, line 611, is
inside the rewind branch of `resume`, which deadlocks (and, as proved
below, is never entered from a reachable state). -/

inductive SpeakerOp where
  | opSpeak (text : String) (speed : ℚ) (cb : Bool)
  /-- Lines 375–377: `self._current_words = words;
  self._current_word_index = 0`. -/
  | opFallbackInit (words : List WordTok)
  | opPause
  | opResume
  | opStop (engineFails : Bool)
  /-- The worker's `finally` block (lines 340–347), shared-flag part. -/
  | opWorkerExit
  deriving Repr

def applyOp (s : SpeakerState) : SpeakerOp → SpeakerState
  | .opSpeak text speed cb => (speak text speed cb s).state
  | .opFallbackInit words =>
      { s with currentWords := words, currentWordIndex := 0 }
  | .opPause => (pause s).1
  | .opResume => (resume s).state
  | .opStop b => (stop b s).1
  | .opWorkerExit =>
      { s with isSpeakingFlag := false, isPausedFlag := false,
               hasWordCallback := false }

def runOps (ops : List SpeakerOp) : SpeakerState :=
  ops.foldl applyOp initialSpeaker

/-- `s` can arise from the fresh speaker by some sequence of the
shared-state operations. -/
def Reachable (s : SpeakerState) : Prop :=
  ∃ ops : List SpeakerOp, runOps ops = s

/-! ## Concrete states used by counterexamples and witnesses -/

/-- A speaker paused during native-callback playback: reachable as
`speak "Hello world today"` followed by `pause` (no fallback word
tracking, so both word indices are 0). -/
def pausedNativeState : SpeakerState :=
  { isSpeakingFlag := true
    isPausedFlag := true
    currentText := "Hello world today"
    hasWordCallback := true
    currentWords := []
    currentWordIndex := 0
    pausedWordIndex := 0 }

/-- A fallback-loop iteration that observes the pause flag (with the
engine happening to report `Completed` and a status check being due). -/
def pausedFallbackEnv : FallbackEnv :=
  { speakingAtTop := true
    pausedAtTop := true
    checkDue := true
    pollResult := some 1
    currentTime := 1/2 }

/-- A speaker that is actively speaking (not paused). -/
def speakingState : SpeakerState :=
  { initialSpeaker with isSpeakingFlag := true }

/-! # Theorems -/

/-! ## Helper lemmas about `stop` -/

theorem stop_clears_speaking (b : Bool) (s : SpeakerState) :
    (stop b s).1.isSpeakingFlag = false := by
  cases hs : s.isSpeakingFlag <;> cases b <;> simp [stop, stopBody, hs]

theorem stop_noop_when_idle (b : Bool) (s : SpeakerState)
    (h : s.isSpeakingFlag = false) : stop b s = (s, []) := by
  simp [stop, stopBody, h]

theorem stop_clears_paused (b : Bool) (s : SpeakerState)
    (h : s.isSpeakingFlag = true) : (stop b s).1.isPausedFlag = false := by
  cases b <;> simp [stop, stopBody, h]

/-- Helper: no shared-state operation ever makes `_current_word_index`
or `_paused_word_index` nonzero. -/
theorem applyOp_preserves_zero_indices (s : SpeakerState) (op : SpeakerOp)
    (h : s.currentWordIndex = 0 ∧ s.pausedWordIndex = 0) :
    (applyOp s op).currentWordIndex = 0 ∧
    (applyOp s op).pausedWordIndex = 0 := by
  obtain ⟨h1, h2⟩ := h
  cases op with
  | opSpeak text speed cb =>
      cases hs : s.isSpeakingFlag <;>
        simp [applyOp, speak, stop, stopBody, hs, h1, h2]
  | opFallbackInit words => simp [applyOp, h2]
  | opPause =>
      by_cases hs : s.isSpeakingFlag <;> by_cases hp : s.isPausedFlag <;>
        simp [applyOp, pause, hs, hp, h1, h2]
  | opResume =>
      by_cases hs : s.isSpeakingFlag
      · by_cases hp : s.isPausedFlag
        · have hc : ¬(s.currentWords ≠ [] ∧ 0 < s.pausedWordIndex) := by
            rw [h2]
            simp
          simp [applyOp, resume, hs, hp, hc, h1, h2]
        · simp [applyOp, resume, hs, hp, h1, h2]
      · simp [applyOp, resume, hs, h1, h2]
  | opStop b =>
      cases hs : s.isSpeakingFlag <;> cases b <;>
        simp [applyOp, stop, stopBody, hs, h1, h2]
  | opWorkerExit => simp [applyOp, h1, h2]

theorem foldl_applyOp_zero_indices :
    ∀ (ops : List SpeakerOp) (s : SpeakerState),
      s.currentWordIndex = 0 ∧ s.pausedWordIndex = 0 →
      (ops.foldl applyOp s).currentWordIndex = 0 ∧
      (ops.foldl applyOp s).pausedWordIndex = 0 := by
  intro ops
  induction ops with
  | nil => intro s h; exact h
  | cons op rest ih =>
      intro s h
      exact ih (applyOp s op) (applyOp_preserves_zero_indices s op h)

/-- Helper: on any state the program can reach, both word-tracking
indices are 0 — the rewind guard of `resume` is never satisfied. -/
theorem reachable_zero_indices (s : SpeakerState) (h : Reachable s) :
    s.currentWordIndex = 0 ∧ s.pausedWordIndex = 0 := by
  obtain ⟨ops, hops⟩ := h
  rw [← hops]
  exact foldl_applyOp_zero_indices ops initialSpeaker ⟨rfl, rfl⟩

/-- Helper: with `_paused_word_index = 0` (every reachable state), a
`resume` on a paused speaking state takes the standard branch: engine
`Resume`, paused flag cleared, nothing else changed. -/
theorem resume_standard (s : SpeakerState) (h0 : s.pausedWordIndex = 0)
    (hs : s.isSpeakingFlag = true) (hp : s.isPausedFlag = true) :
    resume s = ⟨.resumed, { s with isPausedFlag := false },
                [EngineCall.eResume]⟩ := by
  have hc : ¬(s.currentWords ≠ [] ∧ 0 < s.pausedWordIndex) := by
    rw [h0]
    simp
  simp [resume, hs, hp, hc]

/-! ## C9: rate mapping -/

/-- C9: the speed-to-native-rate mapping is the pure total function
`round((speed − 1) · 10)` clamped to `[−10, 10]`; in particular
speed 1.0 ↦ 0, speed 0.5 ↦ −5, speed 2.0 ↦ +10, and every output lies
in `[−10, 10]`.  Determinism is immediate: `sapiRate` is a function of
the speed alone. -/
theorem sapiRate_spec :
    sapiRate 1 = 0 ∧ sapiRate (1/2) = -5 ∧ sapiRate 2 = 10 ∧
    (∀ speed : ℚ,
       sapiRate speed = max (-10) (min 10 (pythonRound ((speed - 1) * 10)))) ∧
    (∀ speed : ℚ, -10 ≤ sapiRate speed ∧ sapiRate speed ≤ 10) := by
  refine ⟨by norm_num [sapiRate, pythonRound],
          by norm_num [sapiRate, pythonRound],
          by norm_num [sapiRate, pythonRound],
          fun _ => rfl,
          fun speed => ⟨le_max_left _ _, max_le (by norm_num) (min_le_left _ _)⟩⟩

/-! ## C7: `stop` is idempotent and never throws -/

/-- C7: `stop()` never propagates an exception (it is a total function on
the speaker state); it always leaves the speaker not speaking; called when
already idle it is a no-op (no engine call, state unchanged); called twice
in a row the second call is a no-op; and even when the engine's `Stop`
throws (the `stopBody … = .error` case), both flags are still forced to
`False`. -/
theorem stop_idempotent_never_throws :
    (∀ (b : Bool) (s : SpeakerState), (stop b s).1.isSpeakingFlag = false) ∧
    (∀ (b : Bool) (s : SpeakerState),
       s.isSpeakingFlag = false → stop b s = (s, [])) ∧
    (∀ (b b' : Bool) (s : SpeakerState),
       stop b' (stop b s).1 = ((stop b s).1, [])) ∧
    (∀ s : SpeakerState, s.isSpeakingFlag = true →
       stopBody true s = Except.error "NBSapi stop error" ∧
       (stop true s).1.isSpeakingFlag = false ∧
       (stop true s).1.isPausedFlag = false) ∧
    (∀ (b : Bool) (s : SpeakerState), s.isSpeakingFlag = true →
       (stop b s).1.isPausedFlag = false) ∧
    (∀ (b : Bool) (s : SpeakerState), is_active (stop b s).1 = false) := by
  refine ⟨stop_clears_speaking, stop_noop_when_idle,
          fun b b' s => stop_noop_when_idle b' _ (stop_clears_speaking b s),
          fun s hs => ⟨by simp [stopBody, hs],
                       stop_clears_speaking true s,
                       stop_clears_paused true s hs⟩,
          fun b s hs => stop_clears_paused b s hs,
          fun b s => by simp [is_active, stop_clears_speaking b s]⟩

/-- Witness for C7: evaluated on a concretely speaking state with a
throwing engine, and on the idle initial state. -/
theorem stop_idempotent_never_throws_witness :
    (stop true speakingState).1.isSpeakingFlag = false ∧
    (stop true speakingState).1.isPausedFlag = false ∧
    stop false (stop true speakingState).1 = ((stop true speakingState).1, []) ∧
    stop false initialSpeaker = (initialSpeaker, []) := by
  exact ⟨(stop_idempotent_never_throws.2.2.2.1 speakingState rfl).2.1,
    (stop_idempotent_never_throws.2.2.2.1 speakingState rfl).2.2,
    stop_idempotent_never_throws.2.2.1 true false speakingState,
    stop_idempotent_never_throws.2.1 false initialSpeaker rfl⟩

/-! ## C10: worker exit always cleans up -/

/-- C10: on every exit of the NBSapi worker — normal completion, stop, or
an exception from the speak logic — the `finally` block leaves the speaker
not speaking and not paused, clears the stored word callback, removes the
thread from the global registry, `is_active()` returns false, and the
delivery guard forwards no further word-boundary events. -/
theorem worker_exit_cleanup :
    ∀ (outcome : WorkerOutcome) (tid : Nat) (p : ProcessState),
      (workerExit outcome tid p).speaker.isSpeakingFlag = false ∧
      (workerExit outcome tid p).speaker.isPausedFlag = false ∧
      (workerExit outcome tid p).speaker.hasWordCallback = false ∧
      tid ∉ (workerExit outcome tid p).registry ∧
      is_active (workerExit outcome tid p).speaker = false ∧
      ∀ ev, deliverWordCallback (workerExit outcome tid p).speaker ev = [] := by
  intro outcome tid p
  refine ⟨rfl, rfl, rfl, ?_, rfl, fun ev => ?_⟩
  · simp [workerExit, workerFinallyCleanup, unregisterSpeechThread]
  · simp [deliverWordCallback, workerExit, workerFinallyCleanup]

/-! ## C2: empty text is not a no-op -/

/-- Counterexample to C2: `speak("")` — the empty string, which is
whitespace-only — is not a no-op in either speaker: a worker thread is
spawned and the speaker becomes speaking (`is_active` true). -/
theorem speak_empty_text_counterexample :
    ("".length = 0) ∧
    (speak "" 1 true initialSpeaker).workerSpawned = true ∧
    (speak "" 1 true initialSpeaker).state.isSpeakingFlag = true ∧
    is_active (speak "" 1 true initialSpeaker).state = true ∧
    (pyttsx3Speak "" 1 true initialSpeaker).workerSpawned = true ∧
    (pyttsx3Speak "" 1 true initialSpeaker).state.isSpeakingFlag = true := by
  exact ⟨rfl, rfl, rfl, rfl, rfl, rfl⟩

/-- C2 (amended): `speak(text, …)` performs no emptiness or whitespace
check at all — for every text, including the empty and whitespace-only
ones, both speakers stop the previous utterance, store the text, become
speaking, and spawn a worker thread. -/
theorem speak_ignores_empty_text :
    ∀ (text : String) (speed : ℚ) (cb : Bool) (s : SpeakerState),
      (speak text speed cb s).workerSpawned = true ∧
      (speak text speed cb s).state.isSpeakingFlag = true ∧
      (speak text speed cb s).state.currentText = text ∧
      (pyttsx3Speak text speed cb s).workerSpawned = true ∧
      (pyttsx3Speak text speed cb s).state.isSpeakingFlag = true := by
  intro text speed cb s
  cases hs : s.isSpeakingFlag <;>
    simp [speak, stop, stopBody, hs, pyttsx3Speak]

/-! ## C3: resume never rewinds -/

/-- C3: resume-without-rewind is the behavior of every execution.  Both
word-tracking indices are 0 in every reachable state (the fallback loop
advances only a local variable, so `_paused_word_index`, a copy of
`_current_word_index`, never becomes positive), hence the rewind guard of
`resume` (line 594) is never satisfied and the rewind branch is dead
code: on any state with `_paused_word_index = 0`, a `resume` in the
paused state issues exactly the engine `Resume` call — never an engine
`Stop` — clears the paused flag and changes nothing else, continuing the
utterance from the pause point.  And the rewind branch, were it ever
entered, would deadlock at line 617 before clearing the paused flag. -/
theorem resume_no_rewind :
    (∀ s : SpeakerState, Reachable s →
       s.currentWordIndex = 0 ∧ s.pausedWordIndex = 0) ∧
    (∀ s : SpeakerState, s.pausedWordIndex = 0 →
       s.isSpeakingFlag = true → s.isPausedFlag = true →
       resume s = ⟨.resumed, { s with isPausedFlag := false },
                   [EngineCall.eResume]⟩) ∧
    (∀ s : SpeakerState, s.pausedWordIndex = 0 →
       EngineCall.eStop ∉ (resume s).engineCalls ∧
       (resume s).outcome ≠ ResumeOutcome.deadlockedInRewind) ∧
    (∀ s : SpeakerState,
       (resume s).outcome = ResumeOutcome.deadlockedInRewind →
       0 < s.pausedWordIndex ∧
       (resume s).state.isPausedFlag = s.isPausedFlag) := by
  refine ⟨reachable_zero_indices, resume_standard, ?_, ?_⟩
  · intro s h0
    have hc : ¬(s.currentWords ≠ [] ∧ 0 < s.pausedWordIndex) := by
      rw [h0]
      simp
    by_cases hs : s.isSpeakingFlag <;> by_cases hp : s.isPausedFlag <;>
      simp [resume, hs, hp, hc]
  · intro s h
    by_cases hs : s.isSpeakingFlag
    · by_cases hp : s.isPausedFlag
      · by_cases hc : s.currentWords ≠ [] ∧ 0 < s.pausedWordIndex
        · refine ⟨hc.2, ?_⟩
          simp [resume, hs, hp, hc]
        · exact absurd h (by simp [resume, hs, hp, hc])
      · exact absurd h (by simp [resume, hs, hp])
    · exact absurd h (by simp [resume, hs])

/-- Witness for C3: the concrete reachable paused state
`speak "Hello world today"; pause`. -/
theorem resume_no_rewind_witness :
    pausedNativeState.currentWordIndex = 0 ∧
    pausedNativeState.pausedWordIndex = 0 ∧
    resume pausedNativeState =
      ⟨.resumed, { pausedNativeState with isPausedFlag := false },
       [EngineCall.eResume]⟩ := by
  refine ⟨(resume_no_rewind.1 pausedNativeState
             ⟨[.opSpeak "Hello world today" 1 true, .opPause], rfl⟩).1,
          (resume_no_rewind.1 pausedNativeState
             ⟨[.opSpeak "Hello world today" 1 true, .opPause], rfl⟩).2,
          resume_no_rewind.2.1 pausedNativeState rfl rfl rfl⟩

/-! ## C5: paused state suppresses completion detection -/

theorem mapFrom_length (f : ℚ → ℚ) :
    ∀ (n : Nat) (l : List ℚ), (mapFrom f n l).length = l.length := by
  intro n l
  induction l generalizing n with
  | nil => cases n <;> rfl
  | cons t ts ih =>
      cases n with
      | zero => simpa [mapFrom] using ih 0
      | succ m => simpa [mapFrom] using ih m

theorem mapFrom_getD (f : ℚ → ℚ) :
    ∀ (n : Nat) (l : List ℚ) (j : Nat), j < l.length →
      (mapFrom f n l).getD j 0 =
        if n ≤ j then f (l.getD j 0) else l.getD j 0 := by
  intro n l
  induction l generalizing n with
  | nil => intro j hj; exact absurd hj (by simp)
  | cons t ts ih =>
      intro j hj
      cases n with
      | zero =>
          cases j with
          | zero => simp [mapFrom]
          | succ i =>
              have hi : i < ts.length := Nat.lt_of_succ_lt_succ hj
              simpa [mapFrom] using ih 0 i hi
      | succ m =>
          cases j with
          | zero => simp [mapFrom]
          | succ i =>
              have hi : i < ts.length := Nat.lt_of_succ_lt_succ hj
              have := ih m i hi
              simpa [mapFrom, Nat.succ_le_succ_iff] using this

/-! ## C8: the pause shift is exact but unreachable -/

/-- C8 (code bug): the shift statement of lines 450–453 would add
exactly the computed duration to every word at index at or after the
current one (`shiftForPause` conjunct), as the claim says — but those
lines are dead code: every fallback-loop iteration that observes the
pause flag deadlocks, spinning in the busy-wait of lines 443–444 while
holding the non-reentrant lock, so `resume()` and `stop()` block forever,
playback can never resume after a fallback pause, and the loop state —
the expected times in particular — is never shifted.  The final
conjuncts evaluate the concrete failing scenario: the spec's three-word
timeline paused at word 1 with the engine even reporting `Completed`. -/
theorem pause_shift_unreachable :
    (∀ (d : ℚ) (fromIdx : Nat) (times : List ℚ) (j : Nat),
       j < times.length → fromIdx ≤ j →
       (shiftForPause d fromIdx times).getD j 0 = times.getD j 0 + d) ∧
    (∀ (env : FallbackEnv) (startTime : ℚ) (words : List WordTok)
       (st : FallbackState),
       env.pausedAtTop = true → env.speakingAtTop = true →
       (fallbackIteration env startTime words st).exit = IterExit.deadlocked ∧
       (fallbackIteration env startTime words st).state = st) ∧
    (fallbackIteration pausedFallbackEnv 0 [(0, 5), (6, 5), (12, 5)]
       ⟨1, [0, 1/3, 2/3], []⟩).exit = IterExit.deadlocked ∧
    (fallbackIteration pausedFallbackEnv 0 [(0, 5), (6, 5), (12, 5)]
       ⟨1, [0, 1/3, 2/3], []⟩).state.times = [0, 1/3, 2/3] := by
  refine ⟨?_, ?_, rfl, rfl⟩
  · intro d fromIdx times j hj hle
    rw [shiftForPause, mapFrom_getD (fun t => t + d) fromIdx times j hj,
      if_pos hle]
  · intro env startTime words st hp hs
    exact ⟨by simp [fallbackIteration, hp, hs], by simp [fallbackIteration, hp, hs]⟩

/-- Witness for C8: the shift formula at a concrete index, and the
deadlock at a concrete paused iteration. -/
theorem pause_shift_unreachable_witness :
    (shiftForPause 2 1 [0, 1/3, 2/3]).getD 1 0 = (1/3 : ℚ) + 2 ∧
    (fallbackIteration pausedFallbackEnv 0 [] ⟨0, [], []⟩).exit =
      IterExit.deadlocked := by
  exact ⟨pause_shift_unreachable.1 2 1 [0, 1/3, 2/3] 1 (by simp) (by simp),
         (pause_shift_unreachable.2.1 pausedFallbackEnv 0 [] ⟨0, [], []⟩
            rfl rfl).1⟩

/-! ## Helper lemmas for drift correction -/

theorem length_le_sum_of_one_le :
    ∀ l : List ℚ, (∀ r ∈ l, 1 ≤ r) → (l.length : ℚ) ≤ l.sum := by
  intro l
  induction l with
  | nil => simp
  | cons r rs ih =>
      intro h
      have hr : 1 ≤ r := h r (List.mem_cons_self r rs)
      have hrs : (rs.length : ℚ) ≤ rs.sum :=
        ih fun x hx => h x (List.mem_cons_of_mem r hx)
      simp only [List.length_cons, List.sum_cons, Nat.cast_succ]
      linarith

theorem lastThree_length {l : List ℚ} (h : 3 ≤ l.length) :
    (lastThree l).length = 3 := by
  simp [lastThree]
  omega

theorem lastThree_subset (l : List ℚ) : ∀ x ∈ lastThree l, x ∈ l := by
  intro x hx
  exact List.drop_subset _ l hx

theorem correctionFactor_nonneg {ratios : List ℚ}
    (h1 : ∀ r ∈ ratios, 1 ≤ r) (h3 : 3 ≤ ratios.length) :
    0 ≤ correctionFactor (lastThree ratios) := by
  have hlen : (lastThree ratios).length = 3 := lastThree_length h3
  have hsum : ((lastThree ratios).length : ℚ) ≤ (lastThree ratios).sum :=
    length_le_sum_of_one_le _ fun r hr => h1 r (lastThree_subset ratios r hr)
  rw [hlen] at hsum
  have h3q : (3 : ℚ) ≤ (lastThree ratios).sum := by exact_mod_cast hsum
  have hbase : 0 ≤ (lastThree ratios).sum / 3 - 1 := by linarith
  have h30 : (0 : ℚ) < 3 / 10 := by norm_num
  exact mul_nonneg hbase (le_of_lt h30)

/-! ## C4: drift correction is damped and safe -/

/-- C4: every timing ratio the fallback loop records is `≥ 1` (it is
recorded only when the word fired at or after its positive expected
elapsed time); the damped 30 %-of-mean-of-last-3 correction factor built
from such ratios is nonnegative; drift correction touches only the words
strictly after the current index, preserves the list length, never moves
any expected time backward (hence never behind the real-time clock), and
never reorders words: expected times that were non-decreasing and at or
after the start time stay non-decreasing. -/
theorem drift_correction_safe :
    (∀ startTime expT curT : ℚ, 0 < expT - startTime → expT ≤ curT →
       1 ≤ timingRatio startTime expT curT) ∧
    (∀ ratios : List ℚ, (∀ r ∈ ratios, 1 ≤ r) → 3 ≤ ratios.length →
       0 ≤ correctionFactor (lastThree ratios)) ∧
    (∀ (startTime cf : ℚ) (curIdx : Nat) (times : List ℚ),
       (driftCorrect startTime cf curIdx times).length = times.length) ∧
    (∀ (startTime cf : ℚ) (curIdx : Nat) (times : List ℚ) (j : Nat),
       j < times.length → j ≤ curIdx →
       (driftCorrect startTime cf curIdx times).getD j 0 = times.getD j 0) ∧
    (∀ (startTime cf : ℚ), 0 ≤ cf → ∀ (curIdx : Nat) (times : List ℚ) (j : Nat),
       j < times.length → startTime ≤ times.getD j 0 →
       times.getD j 0 ≤ (driftCorrect startTime cf curIdx times).getD j 0) ∧
    (∀ (startTime cf : ℚ), 0 ≤ cf → ∀ (curIdx : Nat) (times : List ℚ) (i j : Nat),
       i ≤ j → j < times.length →
       startTime ≤ times.getD i 0 → times.getD i 0 ≤ times.getD j 0 →
       (driftCorrect startTime cf curIdx times).getD i 0 ≤
         (driftCorrect startTime cf curIdx times).getD j 0) := by
  refine ⟨?_, fun _ => correctionFactor_nonneg, ?_, ?_, ?_, ?_⟩
  · intro startTime expT curT hpos hle
    rw [timingRatio]
    rw [le_div_iff₀ hpos, one_mul]
    linarith
  · intro startTime cf curIdx times
    exact mapFrom_length _ _ _
  · intro startTime cf curIdx times j hj hle
    rw [driftCorrect, mapFrom_getD _ _ _ _ hj, if_neg (by omega)]
  · intro startTime cf hcf curIdx times j hj hstart
    rw [driftCorrect, mapFrom_getD _ _ _ _ hj]
    split
    · rw [driftAdjust]
      nlinarith
    · exact le_refl _
  · intro startTime cf hcf curIdx times i j hij hj hstart hmono
    have hi : i < times.length := lt_of_le_of_lt hij hj
    rw [driftCorrect, mapFrom_getD _ _ _ _ hi, mapFrom_getD _ _ _ _ hj]
    by_cases h1 : curIdx + 1 ≤ i
    · rw [if_pos h1, if_pos (le_trans h1 hij)]
      rw [driftAdjust, driftAdjust]
      nlinarith
    · rw [if_neg h1]
      by_cases h2 : curIdx + 1 ≤ j
      · rw [if_pos h2, driftAdjust]
        nlinarith
      · rw [if_neg h2]
        exact hmono

/-- Witness for C4: a concrete ratio, factor and timeline. -/
theorem drift_correction_safe_witness :
    1 ≤ timingRatio 0 1 2 ∧
    (0 : ℚ) ≤ correctionFactor (lastThree [1, 2, 3]) ∧
    ([0, 1, 2] : List ℚ).getD 1 0 ≤ (driftCorrect 0 1 0 [0, 1, 2]).getD 1 0 := by
  refine ⟨drift_correction_safe.1 0 1 2 (by norm_num) (by norm_num),
          drift_correction_safe.2.1 [1, 2, 3] ?_ (by simp),
          drift_correction_safe.2.2.2.2.1 0 1 (by norm_num) 0 [0, 1, 2] 1
            (by simp) (by simp)⟩
  intro r hr
  simp only [List.mem_cons, List.not_mem_nil, or_false] at hr
  rcases hr with h | h | h <;> rw [h] <;> norm_num

/-! ## Helper lemmas for the tokenizer -/

theorem sepSorted_mono : ∀ (l : List WordTok) (b b' : Nat),
    b ≤ b' → sepSorted l b → sepSorted l b' := by
  intro l
  cases l with
  | nil => intro b b' _ _; trivial
  | cons w rest =>
      intro b b' hbb h
      obtain ⟨h1, h2, h3⟩ := h
      exact ⟨le_trans h1 hbb, h2, h3⟩

theorem sepSorted_bounds : ∀ (l : List WordTok) (b : Nat),
    sepSorted l b → ∀ w ∈ l, w.1 + w.2 ≤ b ∧ 0 < w.2 := by
  intro l
  induction l with
  | nil => intro b _ w hw; exact absurd hw (List.not_mem_nil w)
  | cons w0 rest ih =>
      intro b h w hw
      obtain ⟨h1, h2, h3⟩ := h
      rcases List.mem_cons.mp hw with hw | hw
      · subst hw; exact ⟨h1, h2⟩
      · have := ih w0.1 h3 w hw
        exact ⟨le_trans this.1 (le_trans (Nat.le_add_right _ _) h1), this.2⟩

theorem sepSorted_reverse_pairwise : ∀ (l : List WordTok) (b : Nat),
    sepSorted l b →
    l.reverse.Pairwise fun a c => a.1 + a.2 ≤ c.1 := by
  intro l
  induction l with
  | nil => intro b _; simp
  | cons w0 rest ih =>
      intro b h
      obtain ⟨h1, h2, h3⟩ := h
      simp only [List.reverse_cons]
      rw [List.pairwise_append]
      refine ⟨ih w0.1 h3, List.pairwise_singleton _ _, ?_⟩
      intro a ha c hc
      rw [List.mem_singleton] at hc
      have hb := sepSorted_bounds rest w0.1 h3 a (List.mem_reverse.mp ha)
      rw [hc]
      exact hb.1

theorem tokStep_inv (st : TokState) (c : Char) :
    TokInv st → TokInv (tokStep st c) := by
  intro h
  cases hws : c.isWhitespace with
  | false =>
      cases hcur : st.cur with
      | none =>
          rw [TokInv, hcur] at h
          simp only [tokStep, hws, hcur, Bool.false_eq_true, if_false, TokInv]
          exact ⟨Nat.lt_succ_self _, h⟩
      | some s0 =>
          rw [TokInv, hcur] at h
          simp only [tokStep, hws, hcur, Bool.false_eq_true, if_false, TokInv]
          exact ⟨Nat.lt_succ_of_lt h.1, h.2⟩
  | true =>
      cases hcur : st.cur with
      | none =>
          rw [TokInv, hcur] at h
          simp only [tokStep, hws, hcur, if_true, TokInv]
          exact sepSorted_mono _ _ _ (Nat.le_succ _) h
      | some s0 =>
          rw [TokInv, hcur] at h
          simp only [tokStep, hws, hcur, if_true, TokInv, sepSorted]
          refine ⟨by omega, by omega, h.2⟩

theorem foldl_tokStep_inv : ∀ (cs : List Char) (st : TokState),
    TokInv st → TokInv (cs.foldl tokStep st) := by
  intro cs
  induction cs with
  | nil => intro st h; exact h
  | cons c rest ih =>
      intro st h
      exact ih (tokStep st c) (tokStep_inv st c h)

theorem foldl_tokStep_pos : ∀ (cs : List Char) (st : TokState),
    (cs.foldl tokStep st).pos = st.pos + cs.length := by
  intro cs
  induction cs with
  | nil => intro st; simp
  | cons c rest ih =>
      intro st
      have hstep : (tokStep st c).pos = st.pos + 1 := by
        cases hws : c.isWhitespace <;> cases hcur : st.cur <;>
          simp [tokStep, hws, hcur]
      rw [List.foldl_cons, ih (tokStep st c), hstep]
      simp only [List.length_cons]
      omega

theorem tokFinish_sepSorted (st : TokState) (h : TokInv st) :
    sepSorted (tokFinish st) st.pos := by
  cases hcur : st.cur with
  | none =>
      rw [TokInv, hcur] at h
      simp only [tokFinish, hcur]
      exact h
  | some s0 =>
      rw [TokInv, hcur] at h
      simp only [tokFinish, hcur, sepSorted]
      refine ⟨by omega, by omega, h.2⟩

theorem tokenize_sepSorted (cs : List Char) :
    sepSorted (tokFinish (cs.foldl tokStep ⟨0, none, []⟩)) cs.length := by
  have hinv : TokInv (cs.foldl tokStep ⟨0, none, []⟩) :=
    foldl_tokStep_inv cs ⟨0, none, []⟩ (by rw [TokInv]; trivial)
  have hpos : (cs.foldl tokStep ⟨0, none, []⟩).pos = cs.length := by
    rw [foldl_tokStep_pos]
    simp
  rw [← hpos]
  exact tokFinish_sepSorted _ hinv

theorem tokenize_pairwise (cs : List Char) :
    (tokenize cs).Pairwise fun a c => a.1 + a.2 ≤ c.1 := by
  rw [tokenize]
  exact sepSorted_reverse_pairwise _ _ (tokenize_sepSorted cs)

theorem tokenize_bounds (cs : List Char) :
    ∀ w ∈ tokenize cs, 0 < w.2 ∧ w.1 + w.2 ≤ cs.length := by
  intro w hw
  rw [tokenize, List.mem_reverse] at hw
  have := sepSorted_bounds _ _ (tokenize_sepSorted cs) w hw
  exact ⟨this.2, this.1⟩

/-! ## C6: highlight offsets — bounds hold, monotonicity only in the
fallback path -/

/-- Counterexample to C6: the native word-boundary handler only
bounds-filters the engine's events and forwards them in engine order; on
text of length 10, the engine event sequence `(5,2), (0,3)` passes the
filter unchanged and is delivered with decreasing offsets. -/
theorem native_highlight_not_monotone :
    nativeDelivered 10 [(5, 2), (0, 3)] = [(5, 2), (0, 3)] ∧
    ¬ offsetsMono (nativeDelivered 10 [(5, 2), (0, 3)]) := by
  refine ⟨rfl, ?_⟩
  rw [offsetsMono,
    show nativeDelivered 10 [(5, 2), (0, 3)] = [(5, 2), (0, 3)] from rfl]
  rw [List.chain'_cons]
  intro h
  exact absurd h.1 (by decide)

/-- C6 (amended): every pair the native handler delivers satisfies
`0 ≤ offset`, `0 < length` and `offset + length ≤ len(text)`; the
fallback path's word list (from tokenizing the original text) has
strictly separated offsets — consecutive words satisfy
`start + length ≤ next start` — and valid slice bounds, so fallback
highlights, which are emitted in word order, are non-decreasing in
offset; the native path preserves the engine's event order and does not
enforce monotonicity. -/
theorem highlight_bounds_and_fallback_order :
    (∀ (textLen : Nat) (events : List (ℤ × ℤ)),
       ∀ e ∈ nativeDelivered textLen events,
         0 ≤ e.1 ∧ 0 < e.2 ∧ e.1 + e.2 ≤ (textLen : ℤ)) ∧
    (∀ cs : List Char,
       ((tokenize cs).Pairwise fun a c => a.1 + a.2 ≤ c.1) ∧
       ∀ w ∈ tokenize cs, 0 < w.2 ∧ w.1 + w.2 ≤ cs.length) := by
  constructor
  · intro textLen events e he
    rw [nativeDelivered, List.mem_filter] at he
    have hp := he.2
    simp only [Bool.and_eq_true, decide_eq_true_eq] at hp
    exact ⟨hp.1.1, hp.1.2, hp.2⟩
  · intro cs
    exact ⟨tokenize_pairwise cs, tokenize_bounds cs⟩

/-- Witness for C6 (amended): a concrete delivered event and a concrete
tokenized text. -/
theorem highlight_bounds_and_fallback_order_witness :
    (0 ≤ (2 : ℤ) ∧ 0 < (3 : ℤ) ∧ (2 : ℤ) + 3 ≤ ((10 : Nat) : ℤ)) ∧
    (∀ w ∈ tokenize "ab cd".toList,
       0 < w.2 ∧ w.1 + w.2 ≤ "ab cd".toList.length) := by
  exact ⟨highlight_bounds_and_fallback_order.1 10 [((2 : ℤ), (3 : ℤ))]
           (2, 3) (by decide),
         (highlight_bounds_and_fallback_order.2 "ab cd".toList).2⟩

/-! ## C1: a new `speak()` does not fully stop the previous worker -/

/-- Counterexample to C1: under the interleaving semantics of `sysStep`,
the concrete schedule `raceTrace` drives the system into a log in which
worker 1 issues an engine call (`GetStatus`) after worker 2's `Speak` —
the two workers' engine calls interleave, and worker 1 is still alive
(polling) at the end, so a new `speak()` did not stop the previous worker
before the new worker called into the engine. -/
theorem speak_race_counterexample :
    (runSys initSys raceTrace).log =
      [ (0, EngineCall.eSetRate 0)
      , (1, EngineCall.eSpeak "one")
      , (0, EngineCall.eStop)
      , (0, EngineCall.eSetRate 0)
      , (2, EngineCall.eSpeak "two")
      , (1, EngineCall.eGetStatus) ] ∧
    ¬ workersSerialized (runSys initSys raceTrace).log ∧
    lookupPC 1 (runSys initSys raceTrace).workers = some WorkerPC.polling := by
  refine ⟨rfl, ?_, rfl⟩
  rw [workersSerialized]
  decide

/-- C1 (amended): `speak()` signals the previous worker by calling
`stop()` (flag clear plus engine `Stop`) but performs no join: any worker
that is in its polling loop is still in its polling loop after the new
`speak()` returns, the speaking flag is set again, and a fresh worker has
been spawned — so the old worker can go on to issue engine calls
interleaved with the new worker's, as `raceTrace` exhibits. -/
theorem speak_does_not_join_previous_worker :
    ∀ (s : SysState) (text : String) (w : WorkerEntry),
      w ∈ s.workers → w.pc = WorkerPC.polling →
      (w ∈ (sysStep s (SysAction.speakCall text)).workers ∧
       (sysStep s (SysAction.speakCall text)).speaking = true ∧
       ⟨s.nextTid, WorkerPC.launching, text⟩ ∈
         (sysStep s (SysAction.speakCall text)).workers) := by
  intro s text w hw _
  refine ⟨?_, rfl, ?_⟩
  · simp only [sysStep]
    exact List.mem_append_left _ hw
  · simp only [sysStep]
    exact List.mem_append_right _ (List.mem_singleton.mpr rfl)

/-- Witness for C1 (amended): the polling worker of the concrete race
prefix survives the second `speak`. -/
theorem speak_does_not_join_previous_worker_witness :
    (⟨1, WorkerPC.polling, "one"⟩ : WorkerEntry) ∈
      (sysStep
        (runSys initSys [SysAction.speakCall "one", SysAction.workerStep 1 0])
        (SysAction.speakCall "two")).workers := by
  exact (speak_does_not_join_previous_worker
    (runSys initSys [SysAction.speakCall "one", SysAction.workerStep 1 0])
    "two" ⟨1, WorkerPC.polling, "one"⟩ (by decide) rfl).1

end TtsRead
